import Mathlib

/-!
Verification of the real-time webcam color-extraction pipeline
(`examples/advanced_webcam_demo.py` of MareArts-Xcolor).

The Python methods of `WebcamColorExtractor` are shallowly embedded:
pure helpers become Lean functions on `Int`/`Nat`/`ℚ`; Python strings
become lists of character codes (`List Nat`); the stateful recorder,
extraction worker and main-loop scheduler become explicit state-passing
functions.  Machine arithmetic notes are attached at each definition.
-/

namespace WebcamDemo

/-! ### Contrast ("XOR") color — `WebcamColorExtractor.get_xor_color` -/

/-- Embedding of `get_xor_color(background_color)`.  The Python source
computes `xor_c = 255 - c` per channel, falls back to black/white when
`abs(xor_r-r)+abs(xor_g-g)+abs(xor_b-b) < 300`, choosing black when
`(r+g+b)/3 > 127` (true float division; for integer channel sums `s ≤ 765`
the float quotient is exact enough that the comparison agrees with the
rational one, which is what we use). -/
def get_xor_color (r g b : Int) : Int × Int × Int :=
  let xor_r := 255 - r
  let xor_g := 255 - g
  let xor_b := 255 - b
  if |xor_r - r| + |xor_g - g| + |xor_b - b| < 300 then
    if (127 : ℚ) < ((r + g + b : Int) : ℚ) / 3 then (0, 0, 0)
    else (255, 255, 255)
  else (xor_r, xor_g, xor_b)

/-! ### Hex color strings — `hex_to_rgb`, `hex_to_bgr`, `rgb_to_hex`

Python strings are embedded as lists of character codes.  A Python value
reaching these converters is a string, a tuple (of numbers), or anything
else; this is the `PyVal` type. -/

/-- Embedding of the dynamic argument the hex converters accept:
a string (list of character codes), a tuple of numbers, or any other
Python value. -/
inductive PyVal where
  | str (s : List Nat)
  | tup (xs : List Int)
  | other
deriving DecidableEq

/-- Value of one hexadecimal digit character, if the character is one
(`0`-`9`, `a`-`f`, `A`-`F`). -/
def hexDigitVal? (c : Nat) : Option Nat :=
  if 48 ≤ c ∧ c ≤ 57 then some (c - 48)
  else if 97 ≤ c ∧ c ≤ 102 then some (c - 87)
  else if 65 ≤ c ∧ c ≤ 70 then some (c - 55)
  else none

/-- The character is a hexadecimal digit. -/
def isHexDigitCode (c : Nat) : Prop :=
  (48 ≤ c ∧ c ≤ 57) ∨ (97 ≤ c ∧ c ≤ 102) ∨ (65 ≤ c ∧ c ≤ 70)

instance (c : Nat) : Decidable (isHexDigitCode c) := by
  unfold isHexDigitCode; infer_instance

/-- ASCII whitespace stripped by Python's `int(·, 16)`. -/
def isPyWs (c : Nat) : Bool :=
  c == 9 || c == 10 || c == 11 || c == 12 || c == 13 || c == 32

/-- Embedding of Python `int(s, 16)` restricted to the two-character
ASCII strings the demo ever passes (slices of a length-6 string):
two hex digits, or one hex digit with a leading/trailing whitespace
character or a leading sign.  Everything else raises `ValueError`,
modelled as `none`. -/
def int2? (c1 c2 : Nat) : Option Int :=
  match hexDigitVal? c1, hexDigitVal? c2 with
  | some v1, some v2 => some (16 * v1 + v2)
  | _, _ =>
    if isPyWs c1 then (hexDigitVal? c2).map (fun v => (v : Int))
    else if isPyWs c2 then (hexDigitVal? c1).map (fun v => (v : Int))
    else if c1 = 43 then (hexDigitVal? c2).map (fun v => (v : Int))
    else if c1 = 45 then (hexDigitVal? c2).map (fun v => -(v : Int))
    else none

/-- Embedding of `hex_color.lstrip('#')`: drop every leading `#` (code 35). -/
def lstripHash (s : List Nat) : List Nat := s.dropWhile (· == 35)

/-- Embedding of `hex_to_rgb`.  Tuples of length ≥ 3 are passed through
(`int` on a Python int is the identity); non-string non-tuple values give
black; strings are `lstrip`ped of `#`, must then have length 6, and the
three 2-character slices are parsed with `int(·, 16)`; any `ValueError`
is caught and gives black. -/
def hex_to_rgb (v : PyVal) : Int × Int × Int :=
  match v with
  | .tup (a :: b :: c :: _) => (a, b, c)
  | .tup _ => (0, 0, 0)
  | .other => (0, 0, 0)
  | .str s =>
    match lstripHash s with
    | [c1, c2, c3, c4, c5, c6] =>
      match int2? c1 c2, int2? c3 c4, int2? c5 c6 with
      | some r, some g, some b => (r, g, b)
      | _, _, _ => (0, 0, 0)
    | _ => (0, 0, 0)

/-- Embedding of `hex_to_bgr`: identical parsing, channel-reversed
results (`(b, g, r)` from a string, `(t[2], t[1], t[0])` from a tuple). -/
def hex_to_bgr (v : PyVal) : Int × Int × Int :=
  match v with
  | .tup (a :: b :: c :: _) => (c, b, a)
  | .tup _ => (0, 0, 0)
  | .other => (0, 0, 0)
  | .str s =>
    match lstripHash s with
    | [c1, c2, c3, c4, c5, c6] =>
      match int2? c1 c2, int2? c3 c4, int2? c5 c6 with
      | some r, some g, some b => (b, g, r)
      | _, _, _ => (0, 0, 0)
    | _ => (0, 0, 0)

/-- Lowercase hex digit character for a value `v < 16` (as produced by
Python's `x` format). -/
def hexDigitChar (v : Nat) : Nat := if v < 10 then 48 + v else 87 + v

/-- Hexadecimal digit characters of `n`, most significant first
(fuel-structured so the kernel can evaluate it; fuel `n+1` always
suffices). -/
def natHexDigitsAux : Nat → Nat → List Nat
  | 0, _ => []
  | fuel + 1, n =>
    if n < 16 then [hexDigitChar n]
    else natHexDigitsAux fuel (n / 16) ++ [hexDigitChar (n % 16)]

/-- Hexadecimal digit characters of `n`, most significant first. -/
def natHexDigits (n : Nat) : List Nat := natHexDigitsAux (n + 1) n

/-- Embedding of Python `f"{n:02x}"`: lowercase hex, zero-padded to a
total width of 2 (a sign counts toward the width). -/
def fmt02x (n : Int) : List Nat :=
  if n < 0 then 45 :: natHexDigits n.natAbs
  else
    let ds := natHexDigits n.toNat
    if ds.length < 2 then 48 :: ds else ds

/-- Embedding of `rgb_to_hex`: tuples of length ≥ 3 format as
`f"#{r:02x}{g:02x}{b:02x}"`; everything else gives `"#000000"`. -/
def rgb_to_hex (v : PyVal) : List Nat :=
  match v with
  | .tup (r :: g :: b :: _) => 35 :: (fmt02x r ++ fmt02x g ++ fmt02x b)
  | _ => [35, 48, 48, 48, 48, 48, 48]

/-- A Python 3-tuple of ints, as the `PyVal` it is when passed on. -/
def toPy3 (t : Int × Int × Int) : PyVal := .tup [t.1, t.2.1, t.2.2]

/-- Python `str.lower()` on an ASCII code. -/
def lowerCode (c : Nat) : Nat := if 65 ≤ c ∧ c ≤ 90 then c + 32 else c

/-- Python `str.lower()` on a whole string. -/
def lowerStr (s : List Nat) : List Nat := s.map lowerCode

/-! ### Fast clustering palette — `fallback_color_extraction`

`cv2.kmeans` is external (an oracle); what the method does with its
output is embedded exactly: it quantizes the centers to `uint8`
(oracle output is modelled post-quantization as `Nat` triples in BGR
order), computes `np.unique(labels, return_counts=True)` — the distinct
labels in ascending order with their multiplicities — builds one entry
per distinct label with `percentage = count / total * 100`, stably
sorts descending by percentage (Python `list.sort` with `reverse=True`
keeps equal-key order), and truncates to `n_colors`. -/

/-- One entry of the published palette: the dict
`{'rgb': (r,g,b), 'hex': "#rrggbb", 'percentage': p}` built by
`fallback_color_extraction`.  The `label` field additionally records
which cluster index (= insertion position of its center) the entry came
from, so order properties can be stated; it mirrors no Python field and
carries no other information. -/
structure PaletteEntry where
  label : Nat
  rgb : Int × Int × Int
  hex : List Nat
  percentage : ℚ
deriving DecidableEq

/-- Embedding of `np.unique(labels)`: the distinct labels in ascending
order. -/
def uniqueLabels (labels : List Nat) : List Nat :=
  labels.toFinset.sort (· ≤ ·)

/-- The palette entry built for one distinct label: the center is
unpacked as `b, g, r = centers[label]`, the percentage is
`count / total_pixels * 100`, and the hex string is
`f"#{r:02x}{g:02x}{b:02x}"`. -/
def mkEntry (labels : List Nat) (centers : Nat → Nat × Nat × Nat) (lab : Nat) :
    PaletteEntry :=
  let b := (centers lab).1
  let g := (centers lab).2.1
  let r := (centers lab).2.2
  { label := lab
    rgb := ((r : Int), (g : Int), (b : Int))
    hex := 35 :: (fmt02x (r : Int) ++ fmt02x (g : Int) ++ fmt02x (b : Int))
    percentage := (labels.count lab : ℚ) / (labels.length : ℚ) * 100 }

/-- Stable insertion of `x` into a list already sorted descending by
percentage: `x` goes in front of the first element whose percentage is
≤ its own. -/
def insertDesc (x : PaletteEntry) : List PaletteEntry → List PaletteEntry
  | [] => [x]
  | y :: ys => if y.percentage ≤ x.percentage then x :: y :: ys
               else y :: insertDesc x ys

/-- Stable descending sort by percentage.  Extensionally equal to
Python's `colors.sort(key=lambda x: x['percentage'], reverse=True)`:
both are stable and sort descending by the same key, which determines
the output uniquely. -/
def sortDesc : List PaletteEntry → List PaletteEntry
  | [] => []
  | x :: xs => insertDesc x (sortDesc xs)

/-- Embedding of the palette `fallback_color_extraction` publishes from
the clustering output `labels`/`centers`: one entry per distinct label
(ascending label order, as `np.unique` returns them), stably sorted
descending by percentage, truncated to `n_colors`. -/
def paletteOf (labels : List Nat) (centers : Nat → Nat × Nat × Nat)
    (n_colors : Nat) : List PaletteEntry :=
  (sortDesc ((uniqueLabels labels).map (mkEntry labels centers))).take n_colors

/-! ### Segment recorder — `setup_video_recording`, `write_video_frame`,
`finish_video_segment`

The recorder's mutable fields are embedded in `RecorderState`; wall-clock
timestamps (`time.time()`) are rationals.  A sink (`cv2.VideoWriter`) is
identified by the value of `video_segment_count` at the moment it was
opened (that number is baked into its filename), and every
`VideoWriter.write` call is logged in `writes` as a
`(sink id, frame id)` pair so that which frame went to which segment is
observable. -/

/-- Mutable recording state of `WebcamColorExtractor`, plus the write
log. -/
structure RecorderState where
  record_video : Bool
  recording_active : Bool
  video_writer : Option Nat
  video_start_time : ℚ
  video_segment_duration : ℚ
  video_segment_count : Nat
  writes : List (Nat × Nat)
deriving DecidableEq

/-- Embedding of `setup_video_recording`: when recording is enabled,
open a fresh sink named after the current segment count, reset the
segment start time and mark recording active. -/
def setup_video_recording (st : RecorderState) (now : ℚ) : RecorderState :=
  if st.record_video = false then st
  else { st with video_writer := some st.video_segment_count
                 video_start_time := now
                 recording_active := true }

/-- Embedding of `finish_video_segment`: release the sink, if any, and
mark recording inactive. -/
def finish_video_segment (st : RecorderState) : RecorderState :=
  match st.video_writer with
  | some _ => { st with video_writer := none, recording_active := false }
  | none => st

/-- Embedding of `write_video_frame`: a no-op unless recording; writes
the frame to the current sink FIRST, and only then checks whether the
segment duration has elapsed, in which case it finishes the segment,
increments the segment count and opens the next sink. -/
def write_video_frame (st : RecorderState) (frameId : Nat) (now : ℚ) :
    RecorderState :=
  if st.record_video = false ∨ st.recording_active = false then st
  else
    let st1 := match st.video_writer with
      | some w => { st with writes := st.writes ++ [(w, frameId)] }
      | none => st
    if st.video_segment_duration ≤ now - st1.video_start_time then
      let st2 := finish_video_segment st1
      let st3 := { st2 with video_segment_count := st2.video_segment_count + 1 }
      setup_video_recording st3 now
    else st1

/-- Folding a whole sequence of timestamped frames through the recorder,
as the main loop does one frame per iteration. -/
def recordTrace (st : RecorderState) (frames : List (Nat × ℚ)) : RecorderState :=
  frames.foldl (fun s p => write_video_frame s p.1 p.2) st

/-! ### Extraction worker & single-flight guard — `extract_colors_async`

`extract_colors_async` is only ever called from the main-loop thread
(at the cadence, or forced by the `c` key which skips the cadence
check); the guard `self.extraction_thread.is_alive()` therefore sees the
number of worker threads currently running, embedded as `running`.
`jobsStarted` counts `Thread.start()` calls. -/

/-- Trigger-side state of the extraction worker. -/
structure AsyncState where
  running : Nat
  jobsStarted : Nat
deriving DecidableEq

/-- Embedding of one trigger of `extract_colors_async` (together with
its call-site gate in the main loop): a non-forced trigger only happens
when the cadence interval has elapsed; the `c` key forces one
regardless.  The method returns immediately when a worker thread is
alive, returns when the ROI is empty, and otherwise snapshots the ROI
and starts one worker thread.  The returned flag reports whether a new
job was started. -/
def extract_colors_async (st : AsyncState) (cadenceOk forced : Bool)
    (roiSize : Int) : AsyncState × Bool :=
  if cadenceOk = false ∧ forced = false then (st, false)
  else if 1 ≤ st.running then (st, false)
  else if roiSize = 0 then (st, false)
  else ({ running := st.running + 1, jobsStarted := st.jobsStarted + 1 }, true)

/-- A worker thread finishing (its `extract` function returning). -/
def jobComplete (st : AsyncState) : AsyncState :=
  { st with running := st.running - 1 }

/-- The events that touch the single-flight state. -/
inductive FlightEvent where
  | trig (cadenceOk forced : Bool) (roiSize : Int)
  | finish
deriving DecidableEq

/-- One step of the trigger/completion protocol. -/
def stepFlight (st : AsyncState) : FlightEvent → AsyncState
  | .trig c f a => (extract_colors_async st c f a).1
  | .finish => jobComplete st

/-- The single-flight state reached from startup (no thread, no job)
after a sequence of events. -/
def flightTrace (evs : List FlightEvent) : AsyncState :=
  evs.foldl stepFlight { running := 0, jobsStarted := 0 }

/-! ### Worker body & error handling — the `extract` closure and
`fallback_color_extraction`

`cv2.kmeans` may raise; its outcome is an oracle value `KmeansResult`.
The body of `fallback_color_extraction` is embedded as an `Except`
computation (`fallbackBody`); the method itself wraps it in
`try/except`, and the thread closure `extract` wraps the call in a
second `try/except`, so neither ever propagates an exception. -/

/-- Outcome of the external `cv2.kmeans` call: labels plus quantized
centers (BGR `uint8` triples), or a raised exception. -/
inductive KmeansResult where
  | ok (labels : List Nat) (centers : Nat → Nat × Nat × Nat)
  | err (msg : List Nat)

/-- Shared palette state written by the worker under the lock. -/
structure WorkerState where
  current_colors : List PaletteEntry
  last_extraction_time : ℚ
  jobActive : Bool

/-- Body of `fallback_color_extraction` up to where an exception could
escape: early-returns (`ok none`) on a missing or empty ROI snapshot and
on `k < 1`; propagates a `cv2.kmeans` exception; otherwise yields the
palette to publish. -/
def fallbackBody (roi : Option (List (Nat × Nat × Nat))) (n_colors : Nat)
    (kres : KmeansResult) : Except (List Nat) (Option (List PaletteEntry)) :=
  match roi with
  | none => .ok none
  | some pix =>
    if pix.length = 0 then .ok none
    else
      let k := min n_colors pix.length
      if k < 1 then .ok none
      else match kres with
        | .err e => .error e
        | .ok labels centers => .ok (some (paletteOf labels centers n_colors))

/-- Embedding of `fallback_color_extraction`: the body wrapped in its
`try/except` — an exception is caught, logged and means no update. -/
def fallback_color_extraction (st : WorkerState)
    (roi : Option (List (Nat × Nat × Nat))) (n_colors : Nat)
    (kres : KmeansResult) (now : ℚ) : WorkerState :=
  match fallbackBody roi n_colors kres with
  | .error _ => st
  | .ok none => st
  | .ok (some palette) =>
    { st with current_colors := palette, last_extraction_time := now }

/-- Embedding of the worker thread's `extract` closure: calls
`fallback_color_extraction` inside another `try/except`; when the
closure returns the thread dies, so `jobActive` (thread liveness) is
false afterwards in every case. -/
def extractWorker (st : WorkerState) (roi : Option (List (Nat × Nat × Nat)))
    (n_colors : Nat) (kres : KmeansResult) (now : ℚ) : WorkerState :=
  { fallback_color_extraction st roi n_colors kres now with jobActive := false }

/-- The extraction failed this cycle: the sample was missing/empty or
clustering raised. -/
def extractionFailed (roi : Option (List (Nat × Nat × Nat)))
    (kres : KmeansResult) : Prop :=
  roi = none ∨ roi = some [] ∨ ∃ e, kres = .err e

/-! ### Process exit codes — `run` and `main`

`run` prints an error and returns normally both when no camera index
responds and when the capture cannot be opened; `main` catches
`KeyboardInterrupt` and every other `Exception` and returns.  A Python
process that returns from `main` exits 0; an uncaught exception exits
nonzero. -/

/-- How a Python call frame ends. -/
inductive PyTermination where
  | returned
  | raisedKeyboardInterrupt
  | raisedException
deriving DecidableEq

/-- How the main `while` loop ends, when it is reached. -/
inductive LoopEnd where
  | quitKey
  | readFailure
  | interrupt
  | otherError
deriving DecidableEq

/-- Embedding of `WebcamColorExtractor.run`: `find_camera()` result,
whether `cap.isOpened()`, and how the loop ends.  No camera and a
failed open both print and `return`. -/
def run_outcome : Option Nat → Bool → LoopEnd → PyTermination
  | none, _, _ => .returned
  | some _, false, _ => .returned
  | some _, true, e =>
    match e with
    | .quitKey => .returned
    | .readFailure => .returned
    | .interrupt => .raisedKeyboardInterrupt
    | .otherError => .raisedException

/-- Embedding of `main`: `extractor.run()` inside
`try/except KeyboardInterrupt/except Exception`, both handlers printing
and returning. -/
def main_outcome (cam : Option Nat) (openOk : Bool) (e : LoopEnd) :
    PyTermination :=
  match run_outcome cam openOk e with
  | .raisedKeyboardInterrupt => .returned
  | .raisedException => .returned
  | .returned => .returned

/-- Exit code of the Python process given how `main` ended. -/
def processExitCode : PyTermination → Nat
  | .returned => 0
  | .raisedKeyboardInterrupt => 130
  | .raisedException => 1

/-! ### ROI sampler — `extract_roi_from_circle` -/

/-- Embedding of `extract_roi_from_circle`: the square of the given
radius around `(width // 2, height // 2)`, clamped to the frame.
Returns `(x1, y1, x2, y2)`; the numpy slice `frame[y1:y2, x1:x2]` is
well-defined whenever `0 ≤ x1 ≤ x2 ≤ width` and `0 ≤ y1 ≤ y2 ≤ height`. -/
def extract_roi_from_circle (width height radius : Int) :
    Int × Int × Int × Int :=
  let center_x := width / 2
  let center_y := height / 2
  (max 0 (center_x - radius), max 0 (center_y - radius),
   min width (center_x + radius), min height (center_y + radius))

/-- Element count (`roi.size`) of the clipped region: rows × columns ×
3 channels. -/
def roiSizeOf (width height radius : Int) : Int :=
  let r := extract_roi_from_circle width height radius
  (r.2.2.1 - r.1) * (r.2.2.2 - r.2.1) * 3

/-! ## Helper lemmas -/

/-- Any trigger/finish step keeps the worker-thread count at most one. -/
lemma flight_running_le_one : ∀ (evs : List FlightEvent) (st : AsyncState),
    st.running ≤ 1 → (evs.foldl stepFlight st).running ≤ 1 := by
  intro evs
  induction evs with
  | nil => intro st h; exact h
  | cons e evs ih =>
    intro st h
    refine ih _ ?_
    cases e with
    | trig c f a =>
      simp only [stepFlight, extract_colors_async]
      by_cases h1 : c = false ∧ f = false
      · rw [if_pos h1]; exact h
      · by_cases h2 : 1 ≤ st.running
        · rw [if_neg h1, if_pos h2]; exact h
        · by_cases h3 : a = 0
          · rw [if_neg h1, if_neg h2, if_pos h3]; exact h
          · rw [if_neg h1, if_neg h2, if_neg h3]
            show st.running + 1 ≤ 1
            omega
    | finish =>
      simp only [stepFlight, jobComplete]
      omega

/-- A hexadecimal digit character has a value below 16, and formatting
that value as a lowercase hex digit gives exactly the lowercase of the
character. -/
lemma hexDigit_val_lower : ∀ c : Nat, isHexDigitCode c →
    ∃ v, hexDigitVal? c = some v ∧ v < 16 ∧ hexDigitChar v = lowerCode c := by
  have key : ∀ c < 103, isHexDigitCode c →
      (hexDigitVal? c).getD 0 < 16 ∧
      hexDigitChar ((hexDigitVal? c).getD 0) = lowerCode c ∧
      hexDigitVal? c ≠ none := by decide
  intro c hc
  have hb : c < 103 := by
    rcases hc with ⟨_, h⟩ | ⟨_, h⟩ | ⟨_, h⟩ <;> omega
  obtain ⟨h16, hch, hnn⟩ := key c hb hc
  rcases hv : hexDigitVal? c with _ | v
  · exact absurd hv hnn
  · refine ⟨v, rfl, ?_, ?_⟩
    · simpa [hv] using h16
    · simpa [hv] using hch

/-- Formatting the byte `16*v1 + v2` with Python's `02x` format yields
the two digit characters. -/
lemma fmt02x_digits : ∀ v1 < 16, ∀ v2 < 16,
    fmt02x (16 * (v1 : Nat) + (v2 : Nat) : Int) =
      [hexDigitChar v1, hexDigitChar v2] := by decide

/-- The open sink, when there is one, is the one named after the
current segment count (true of every state the demo reaches, since
`setup_video_recording` bakes the current count into the filename). -/
def writerConsistent (st : RecorderState) : Prop :=
  ∀ w, st.video_writer = some w → w = st.video_segment_count

/-- A frame write while recording with sink `w` open and the budget
elapsed: the frame is appended to sink `w`, then the segment is
finished, the count incremented and a fresh sink opened at the new
count with the clock reset. -/
lemma write_video_frame_rotate (st : RecorderState) (f : Nat) (t : ℚ)
    (hrec : st.record_video = true) (hact : st.recording_active = true)
    (w : Nat) (hw : st.video_writer = some w)
    (hel : st.video_segment_duration ≤ t - st.video_start_time) :
    write_video_frame st f t =
      { st with writes := st.writes ++ [(w, f)]
                video_writer := some (st.video_segment_count + 1)
                video_start_time := t
                recording_active := true
                video_segment_count := st.video_segment_count + 1 } := by
  simp [write_video_frame, finish_video_segment, setup_video_recording,
        hrec, hact, hw, hel]

/-- A frame write while recording with sink `w` open and budget not yet
elapsed: the frame is appended to sink `w` and nothing else changes. -/
lemma write_video_frame_no_rotate (st : RecorderState) (f : Nat) (t : ℚ)
    (hrec : st.record_video = true) (hact : st.recording_active = true)
    (w : Nat) (hw : st.video_writer = some w)
    (hel : ¬ st.video_segment_duration ≤ t - st.video_start_time) :
    write_video_frame st f t = { st with writes := st.writes ++ [(w, f)] } := by
  simp [write_video_frame, hrec, hact, hw, hel]

/-- One frame write preserves writer consistency, never decreases the
segment count, and only appends writes, all of them to the sink named
after the pre-state's segment count. -/
lemma write_step_facts (st : RecorderState) (f : Nat) (t : ℚ)
    (h : writerConsistent st) :
    writerConsistent (write_video_frame st f t) ∧
    st.video_segment_count ≤ (write_video_frame st f t).video_segment_count ∧
    ∃ tail, (write_video_frame st f t).writes = st.writes ++ tail ∧
      ∀ p ∈ tail, p.1 = st.video_segment_count := by
  by_cases hg : st.record_video = false ∨ st.recording_active = false
  · rw [show write_video_frame st f t = st by simp [write_video_frame, hg]]
    exact ⟨h, le_rfl, [], by simp, by simp⟩
  · push_neg at hg
    obtain ⟨hrec, hact⟩ := hg
    rw [Bool.ne_false_iff] at hrec hact
    rcases hv : st.video_writer with _ | w
    · by_cases hel : st.video_segment_duration ≤ t - st.video_start_time
      · rw [show write_video_frame st f t =
            { st with video_writer := some (st.video_segment_count + 1)
                      video_start_time := t
                      recording_active := true
                      video_segment_count := st.video_segment_count + 1 } by
          simp [write_video_frame, finish_video_segment, setup_video_recording,
                hrec, hact, hv, hel]]
        refine ⟨?_, by simp, [], by simp, by simp⟩
        intro w' hw'
        simpa using hw'.symm
      · rw [show write_video_frame st f t = st by
          simp [write_video_frame, hrec, hact, hv, hel]]
        exact ⟨h, le_rfl, [], by simp, by simp⟩
    · have hwc := h w hv
      by_cases hel : st.video_segment_duration ≤ t - st.video_start_time
      · rw [write_video_frame_rotate st f t hrec hact w hv hel]
        refine ⟨?_, by simp, [(w, f)], by simp, ?_⟩
        · intro w' hw'
          simpa using hw'.symm
        · intro p hp
          simp only [List.mem_singleton] at hp
          subst hp
          exact hwc
      · rw [write_video_frame_no_rotate st f t hrec hact w hv hel]
        refine ⟨?_, by simp, [(w, f)], by simp, ?_⟩
        · intro w' hw'
          exact h w' hw'
        · intro p hp
          simp only [List.mem_singleton] at hp
          subst hp
          exact hwc

/-- Over any continuation of frames the recorder only appends writes,
all of them to sinks numbered at least the starting segment count. -/
lemma recordTrace_facts : ∀ (frames : List (Nat × ℚ)) (st : RecorderState),
    writerConsistent st →
    ∃ tail, (recordTrace st frames).writes = st.writes ++ tail ∧
      ∀ p ∈ tail, st.video_segment_count ≤ p.1 := by
  intro frames
  induction frames with
  | nil => intro st _; exact ⟨[], by simp [recordTrace], by simp⟩
  | cons fr rest ih =>
    intro st h
    obtain ⟨h1, h2, tail1, e1, m1⟩ := write_step_facts st fr.1 fr.2 h
    obtain ⟨tail2, e2, m2⟩ := ih (write_video_frame st fr.1 fr.2) h1
    have estep : recordTrace st (fr :: rest) =
        recordTrace (write_video_frame st fr.1 fr.2) rest := rfl
    refine ⟨tail1 ++ tail2, ?_, ?_⟩
    · rw [estep, e2, e1, List.append_assoc]
    · intro p hp
      rcases List.mem_append.mp hp with hp1 | hp2
      · exact le_of_eq (m1 p hp1).symm
      · exact le_trans h2 (m2 p hp2)

/-- Entry `a` may sit before entry `b` in a stable descending sort
without violating stability: if their percentages tie, `a`'s cluster
center was inserted first. -/
def stableTie (a b : PaletteEntry) : Prop :=
  a.percentage = b.percentage → a.label < b.label

/-- The order invariant of the published palette: non-increasing
percentages, and ties ordered by cluster insertion. -/
def sortedRun (a b : PaletteEntry) : Prop :=
  b.percentage ≤ a.percentage ∧
  (a.percentage = b.percentage → a.label < b.label)

lemma mem_insertDesc {z x : PaletteEntry} :
    ∀ {l : List PaletteEntry}, z ∈ insertDesc x l ↔ z = x ∨ z ∈ l := by
  intro l
  induction l with
  | nil => simp [insertDesc]
  | cons y ys ih =>
    simp only [insertDesc]
    split
    · simp [List.mem_cons]
    · simp only [List.mem_cons, ih]
      tauto

lemma perm_insertDesc (x : PaletteEntry) (l : List PaletteEntry) :
    List.Perm (insertDesc x l) (x :: l) := by
  induction l with
  | nil => exact List.Perm.refl _
  | cons y ys ih =>
    simp only [insertDesc]
    split
    · exact List.Perm.refl _
    · exact (ih.cons y).trans (List.Perm.swap x y ys)

lemma perm_sortDesc (l : List PaletteEntry) : List.Perm (sortDesc l) l := by
  induction l with
  | nil => exact List.Perm.refl _
  | cons x xs ih => exact (perm_insertDesc x (sortDesc xs)).trans (ih.cons x)

lemma pairwise_insertDesc {x : PaletteEntry} :
    ∀ {l : List PaletteEntry}, l.Pairwise sortedRun →
      (∀ y ∈ l, stableTie x y) → (insertDesc x l).Pairwise sortedRun := by
  intro l
  induction l with
  | nil =>
    intro _ _
    simp [insertDesc]
  | cons y ys ih =>
    intro hl hx
    rcases List.pairwise_cons.mp hl with ⟨hy, hys⟩
    simp only [insertDesc]
    split
    · rename_i hyx
      refine List.pairwise_cons.mpr ⟨?_, hl⟩
      intro z hz
      rcases List.mem_cons.mp hz with rfl | hz'
      · exact ⟨hyx, hx _ (List.mem_cons_self _ _)⟩
      · have hqz := hy z hz'
        refine ⟨hqz.1.trans hyx, ?_⟩
        intro hpz
        have hxy : y.percentage = x.percentage :=
          le_antisymm hyx (by rw [hpz]; exact hqz.1)
        have h1 : x.label < y.label := hx _ (List.mem_cons_self _ _) hxy.symm
        have h2 : y.label < z.label := hqz.2 (hxy.symm.symm.trans hpz)
        exact h1.trans h2
    · rename_i hyx
      push_neg at hyx
      refine List.pairwise_cons.mpr
        ⟨?_, ih hys (fun z hz => hx z (List.mem_cons_of_mem _ hz))⟩
      intro z hz
      rcases mem_insertDesc.mp hz with rfl | hz'
      · exact ⟨le_of_lt hyx, fun h => absurd h.symm (ne_of_lt hyx)⟩
      · exact hy z hz'

lemma pairwise_sortDesc :
    ∀ {l : List PaletteEntry}, l.Pairwise stableTie →
      (sortDesc l).Pairwise sortedRun := by
  intro l
  induction l with
  | nil =>
    intro _
    simp [sortDesc]
  | cons x xs ih =>
    intro hl
    rcases List.pairwise_cons.mp hl with ⟨hx, hxs⟩
    exact pairwise_insertDesc (ih hxs)
      (fun y hy => hx y ((perm_sortDesc xs).mem_iff.mp hy))

/-- The entries come off `np.unique` in strictly ascending label order,
so any two of them satisfy the stable-tie side condition outright. -/
lemma entries_pairwise_stableTie (labels : List Nat)
    (centers : Nat → Nat × Nat × Nat) :
    ((uniqueLabels labels).map (mkEntry labels centers)).Pairwise stableTie := by
  have hs : (uniqueLabels labels).Pairwise (· < ·) :=
    Finset.sort_sorted_lt labels.toFinset
  rw [List.pairwise_map]
  refine hs.imp fun {a b} hab => ?_
  intro _
  simpa [mkEntry] using hab

/-- The percentages over all distinct labels sum to exactly 100. -/
lemma sum_percentages_eq (labels : List Nat) (hne : labels ≠ []) :
    ((uniqueLabels labels).map
      (fun lab => (labels.count lab : ℚ) / (labels.length : ℚ) * 100)).sum
      = 100 := by
  have hL : ((labels.length : ℚ)) ≠ 0 := by
    have := List.length_pos.mpr hne
    positivity
  have hperm : List.Perm (uniqueLabels labels) labels.dedup := by
    refine (Finset.sort_perm_toList _ _).trans ?_
    have h1 : labels.dedup.toFinset = labels.toFinset := by ext a; simp
    rw [← h1]
    exact List.toFinset_toList (List.nodup_dedup labels)
  rw [(hperm.map _).sum_eq]
  have hfun : (fun lab => (labels.count lab : ℚ) / (labels.length : ℚ) * 100)
      = fun lab => ((labels.count lab : ℚ)) * (100 / (labels.length : ℚ)) := by
    funext lab
    ring
  rw [hfun]
  rw [List.sum_map_mul_right]
  have hcast : (labels.dedup.map fun lab => ((labels.count lab : ℕ) : ℚ)).sum
      = ((labels.dedup.map fun lab => labels.count lab).sum : ℚ) := by
    rw [Nat.cast_list_sum, List.map_map]
    rfl
  rw [hcast, List.sum_map_count_dedup_eq_length]
  field_simp

/-! ## Claims -/

/-- C2: `get_xor_color` returns the inverted candidate
`(255-r, 255-g, 255-b)` whenever the Manhattan distance between the
candidate and the background is at least 300, and otherwise falls back
to black when the channel average exceeds 127 and to white when it does
not; in particular `(200,200,200) ↦ (55,55,55)`,
`(10,10,10) ↦ (245,245,245)` and `(130,130,130) ↦ (0,0,0)`. -/
theorem get_xor_color_contrast :
    (∀ r g b : Int, 0 ≤ r → r ≤ 255 → 0 ≤ g → g ≤ 255 → 0 ≤ b → b ≤ 255 →
      (300 ≤ |255 - r - r| + |255 - g - g| + |255 - b - b| →
        get_xor_color r g b = (255 - r, 255 - g, 255 - b)) ∧
      (|255 - r - r| + |255 - g - g| + |255 - b - b| < 300 →
        get_xor_color r g b =
          if (127 : ℚ) < ((r + g + b : Int) : ℚ) / 3 then (0, 0, 0)
          else (255, 255, 255))) ∧
    get_xor_color 200 200 200 = (55, 55, 55) ∧
    get_xor_color 10 10 10 = (245, 245, 245) ∧
    get_xor_color 130 130 130 = (0, 0, 0) := by
  refine ⟨fun r g b _ _ _ _ _ _ => ⟨fun hge => ?_, fun hlt => ?_⟩, ?_, ?_, ?_⟩
  · simp only [get_xor_color]
    rw [if_neg (not_lt.mpr hge)]
  · simp only [get_xor_color]
    rw [if_pos hlt]
  · decide
  · decide
  · simp only [get_xor_color]
    rw [if_pos (by decide), if_pos (by norm_num)]

/-- Witness for C2 at background `(10,10,10)`: the inverted candidate is
far enough and is returned. -/
theorem get_xor_color_contrast_witness :
    300 ≤ |255 - (10 : Int) - 10| + |255 - (10 : Int) - 10| + |255 - (10 : Int) - 10| ∧
    get_xor_color 10 10 10 = (245, 245, 245) :=
  ⟨by decide,
   (get_xor_color_contrast.1 10 10 10 (by decide) (by decide) (by decide)
      (by decide) (by decide) (by decide)).1 (by decide)⟩

/-- C4: while a worker thread is alive every trigger — timer-driven or
forced — is dropped without starting a job; once no job is running, the
next trigger with a non-empty ROI (whether it arrives via the cadence or
forced by the `c` key, which bypasses the cadence gate) starts exactly
one fresh job; and along every event trace from startup at most one
extraction job is in flight. -/
theorem single_flight_guard :
    (∀ (st : AsyncState) (c f : Bool) (a : Int), 1 ≤ st.running →
      extract_colors_async st c f a = (st, false)) ∧
    (∀ (st : AsyncState) (a : Int), st.running = 0 → a ≠ 0 →
      (extract_colors_async st true false a).2 = true ∧
      (extract_colors_async st false true a).2 = true ∧
      (extract_colors_async st true false a).1.jobsStarted = st.jobsStarted + 1) ∧
    (∀ evs : List FlightEvent, (flightTrace evs).running ≤ 1) := by
  refine ⟨?_, ?_, ?_⟩
  · intro st c f a h
    simp [extract_colors_async, h]
  · intro st a h ha
    refine ⟨?_, ?_, ?_⟩ <;> simp [extract_colors_async, h, ha]
  · intro evs
    exact flight_running_le_one evs _ (Nat.zero_le 1)

/-- Witness for C4: a trigger against a running job is a no-op, and a
forced trigger with no job running starts one. -/
theorem single_flight_guard_witness :
    extract_colors_async ⟨1, 3⟩ true true 100 = (⟨1, 3⟩, false) ∧
    (extract_colors_async ⟨0, 3⟩ false true 100).2 = true :=
  ⟨single_flight_guard.1 ⟨1, 3⟩ true true 100 (by decide),
   (single_flight_guard.2.1 ⟨0, 3⟩ 100 rfl (by decide)).2.1⟩

/-- C6: whatever the clustering oracle does, the worker thread ends with
the job-active flag false, and on any failure (missing snapshot, empty
sample, or a raised clustering error — all caught by the worker's
`try/except`) the shared palette state is left unchanged for that
cycle. -/
theorem worker_never_sticks :
    ∀ (st : WorkerState) (roi : Option (List (Nat × Nat × Nat))) (n : Nat)
      (kres : KmeansResult) (now : ℚ),
      (extractWorker st roi n kres now).jobActive = false ∧
      (extractionFailed roi kres →
        (extractWorker st roi n kres now).current_colors = st.current_colors ∧
        (extractWorker st roi n kres now).last_extraction_time = st.last_extraction_time) := by
  intro st roi n kres now
  constructor
  · rfl
  · intro hfail
    rcases hfail with h | h | ⟨e, h⟩
    · subst h; exact ⟨rfl, rfl⟩
    · subst h; exact ⟨rfl, rfl⟩
    · subst h
      rcases roi with _ | pix
      · exact ⟨rfl, rfl⟩
      · simp only [extractWorker, fallback_color_extraction, fallbackBody]
        split
        · exact ⟨rfl, rfl⟩
        · exact ⟨rfl, rfl⟩
        · rename_i palette heq
          exfalso
          split at heq
          · simp at heq
          · split at heq
            · simp at heq
            · simp at heq

/-- Witness for C6: a raised clustering error on a missing snapshot
leaves the palette empty and the flag cleared. -/
theorem worker_never_sticks_witness :
    (extractWorker ⟨[], 0, true⟩ none 5 (.err []) 1).jobActive = false ∧
    (extractWorker ⟨[], 0, true⟩ none 5 (.err []) 1).current_colors = [] :=
  ⟨(worker_never_sticks ⟨[], 0, true⟩ none 5 (.err []) 1).1,
   ((worker_never_sticks ⟨[], 0, true⟩ none 5 (.err []) 1).2 (Or.inl rfl)).1⟩

/-- C7 counterexample: when no camera is found, `run` prints and
returns, `main` returns, and the process exits with code 0 — not the
non-zero code the claim requires. -/
theorem no_camera_exits_zero :
    processExitCode (main_outcome none true .quitKey) = 0 ∧
    main_outcome none true .quitKey = .returned := ⟨rfl, rfl⟩

/-- C7 amended: the process exits with code 0 on a normal user quit,
and also with code 0 when it fails to acquire a frame source (the
failure is only reported as a printed message); indeed every path
through `main` exits 0. -/
theorem exit_code_always_zero :
    ∀ (cam : Option Nat) (openOk : Bool) (e : LoopEnd),
      processExitCode (main_outcome cam openOk e) = 0 := by
  intro cam openOk e
  cases cam <;> cases openOk <;> cases e <;> rfl

/-- C9: the ROI is the square of the circle radius around
`(width/2, height/2)` clamped to `[0,width] × [0,height]` — so the numpy
slice never reads out of bounds, also on frames smaller than twice the
radius — and a zero-area clipped region makes the trigger skip
extraction without starting a job and without an error. -/
theorem roi_clamped_and_skip :
    ∀ w h r : Int, 0 ≤ w → 0 ≤ h → 0 ≤ r →
      (0 ≤ (extract_roi_from_circle w h r).1 ∧
       (extract_roi_from_circle w h r).1 ≤ (extract_roi_from_circle w h r).2.2.1 ∧
       (extract_roi_from_circle w h r).2.2.1 ≤ w ∧
       0 ≤ (extract_roi_from_circle w h r).2.1 ∧
       (extract_roi_from_circle w h r).2.1 ≤ (extract_roi_from_circle w h r).2.2.2 ∧
       (extract_roi_from_circle w h r).2.2.2 ≤ h) ∧
      (roiSizeOf w h r = 0 →
        ∀ (st : AsyncState) (c f : Bool),
          extract_colors_async st c f (roiSizeOf w h r) = (st, false)) := by
  intro w h r hw hh hr
  constructor
  · simp only [extract_roi_from_circle]
    refine ⟨?_, ?_, ?_, ?_, ?_, ?_⟩ <;> omega
  · intro hz st c f
    simp [extract_colors_async, hz]

/-- Witness for C9: a 0×0 frame (radius 50) gives in-bounds clamped
coordinates and an empty region, and the trigger on it is a no-op. -/
theorem roi_clamped_and_skip_witness :
    (0 : Int) ≤ (extract_roi_from_circle 0 0 50).1 ∧
    extract_colors_async ⟨0, 0⟩ true false (roiSizeOf 0 0 50) = (⟨0, 0⟩, false) :=
  ⟨((roi_clamped_and_skip 0 0 50 (by omega) (by omega) (by omega)).1).1,
   (roi_clamped_and_skip 0 0 50 (by omega) (by omega) (by omega)).2 (by decide) ⟨0, 0⟩ true false⟩

/-- C3: for every well-formed 6-digit hex color string — `#` followed by
six hexadecimal digit characters of either case — converting with
`hex_to_rgb` and back with `rgb_to_hex` yields exactly the lowercase
form of the string. -/
theorem hex_roundtrip :
    ∀ c1 c2 c3 c4 c5 c6 : Nat,
      isHexDigitCode c1 → isHexDigitCode c2 → isHexDigitCode c3 →
      isHexDigitCode c4 → isHexDigitCode c5 → isHexDigitCode c6 →
      rgb_to_hex (toPy3 (hex_to_rgb (.str [35, c1, c2, c3, c4, c5, c6]))) =
        lowerStr [35, c1, c2, c3, c4, c5, c6] := by
  intro c1 c2 c3 c4 c5 c6 h1 h2 h3 h4 h5 h6
  obtain ⟨v1, e1, b1, f1⟩ := hexDigit_val_lower c1 h1
  obtain ⟨v2, e2, b2, f2⟩ := hexDigit_val_lower c2 h2
  obtain ⟨v3, e3, b3, f3⟩ := hexDigit_val_lower c3 h3
  obtain ⟨v4, e4, b4, f4⟩ := hexDigit_val_lower c4 h4
  obtain ⟨v5, e5, b5, f5⟩ := hexDigit_val_lower c5 h5
  obtain ⟨v6, e6, b6, f6⟩ := hexDigit_val_lower c6 h6
  have hne : (c1 == 35) = false := by
    have : c1 ≠ 35 := by rcases h1 with ⟨h, _⟩ | ⟨h, _⟩ | ⟨h, _⟩ <;> omega
    simpa using this
  have hstrip : lstripHash [35, c1, c2, c3, c4, c5, c6] = [c1, c2, c3, c4, c5, c6] := by
    simp [lstripHash, List.dropWhile_cons, hne]
  have i12 : int2? c1 c2 = some (16 * (v1 : Nat) + (v2 : Nat) : Int) := by
    simp [int2?, e1, e2]
  have i34 : int2? c3 c4 = some (16 * (v3 : Nat) + (v4 : Nat) : Int) := by
    simp [int2?, e3, e4]
  have i56 : int2? c5 c6 = some (16 * (v5 : Nat) + (v6 : Nat) : Int) := by
    simp [int2?, e5, e6]
  have hrgb : hex_to_rgb (.str [35, c1, c2, c3, c4, c5, c6]) =
      ((16 * (v1 : Nat) + (v2 : Nat) : Int), (16 * (v3 : Nat) + (v4 : Nat) : Int),
       (16 * (v5 : Nat) + (v6 : Nat) : Int)) := by
    simp [hex_to_rgb, hstrip, i12, i34, i56]
  have l35 : lowerCode 35 = 35 := rfl
  simp [hrgb, toPy3, rgb_to_hex, lowerStr, l35,
        fmt02x_digits v1 b1 v2 b2, fmt02x_digits v3 b3 v4 b4,
        fmt02x_digits v5 b5 v6 b6, f1, f2, f3, f4, f5, f6]

/-- Witness for C3 at the mixed-case string `"#AbCdEf"`: the round trip
returns `"#abcdef"`. -/
theorem hex_roundtrip_witness :
    isHexDigitCode 65 ∧
    rgb_to_hex (toPy3 (hex_to_rgb (.str [35, 65, 98, 67, 100, 69, 102]))) =
      lowerStr [35, 65, 98, 67, 100, 69, 102] :=
  ⟨by decide,
   hex_roundtrip 65 98 67 100 69 102 (by decide) (by decide) (by decide)
     (by decide) (by decide) (by decide)⟩

/-- C10 counterexample: the string `"+a1b2c"` is not a valid hex color
(its first character is neither `#` nor a hex digit), yet `hex_to_rgb`
returns `(10, 27, 44)` rather than `(0, 0, 0)`, because Python's
`int(·, 16)` accepts the signed slice `"+a"`. -/
theorem hex_to_rgb_accepts_signed_slice :
    hex_to_rgb (.str [43, 97, 49, 98, 50, 99]) = (10, 27, 44) ∧
    ((10 : Int), (27 : Int), (44 : Int)) ≠ ((0 : Int), (0 : Int), (0 : Int)) ∧
    ¬ isHexDigitCode 43 ∧ (43 : Nat) ≠ 35 := by decide

/-- C10 amended: for every input value — string, tuple or anything
else — `hex_to_bgr` returns exactly the channel-reversed triple of
`hex_to_rgb`, and inputs that are neither strings nor tuples yield
`(0,0,0)`; but a malformed string can yield a non-black triple, since
Python's `int(·, 16)` also accepts signed or whitespace-padded
2-character slices. -/
theorem bgr_is_reversed_rgb :
    (∀ x : PyVal,
      hex_to_bgr x =
        ((hex_to_rgb x).2.2, (hex_to_rgb x).2.1, (hex_to_rgb x).1)) ∧
    hex_to_rgb .other = (0, 0, 0) ∧ hex_to_bgr .other = (0, 0, 0) := by
  refine ⟨?_, rfl, rfl⟩
  intro x
  cases x with
  | other => rfl
  | tup xs =>
    rcases xs with _ | ⟨a, _ | ⟨b, _ | ⟨c, t⟩⟩⟩ <;> rfl
  | str s =>
    simp only [hex_to_bgr, hex_to_rgb]
    generalize lstripHash s = t
    rcases t with _ | ⟨c1, _ | ⟨c2, _ | ⟨c3, _ | ⟨c4, _ | ⟨c5, _ | ⟨c6, _ | ⟨c7, u⟩⟩⟩⟩⟩⟩⟩ <;>
      try rfl
    cases h12 : int2? c1 c2 <;> cases h34 : int2? c3 c4 <;>
      cases h56 : int2? c5 c6 <;> simp [h12, h34, h56]

/-- C1 counterexample: recording with sink 1 open since time 0
(budget 30s), the frame arriving at time 30 triggers rotation — but
`write_video_frame` writes the frame to the sink BEFORE checking the
budget, so the triggering frame lands in old sink 1 and new sink 2
receives nothing, contrary to the claim that the triggering frame is
written to the new segment and never to the old one. -/
theorem rotation_frame_goes_to_old_sink :
    (write_video_frame ⟨true, true, some 1, 0, 30, 1, []⟩ 7 30).writes = [(1, 7)] ∧
    (write_video_frame ⟨true, true, some 1, 0, 30, 1, []⟩ 7 30).video_segment_count = 2 ∧
    (write_video_frame ⟨true, true, some 1, 0, 30, 1, []⟩ 7 30).video_writer = some 2 ∧
    (2, 7) ∉ (write_video_frame ⟨true, true, some 1, 0, 30, 1, []⟩ 7 30).writes := by
  have e : write_video_frame ⟨true, true, some 1, 0, 30, 1, []⟩ 7 30 =
      ⟨true, true, some 2, 30, 30, 2, [(1, 7)]⟩ := by
    rw [write_video_frame_rotate _ 7 30 rfl rfl 1 rfl (by norm_num)]
    rfl
  rw [e]
  refine ⟨rfl, rfl, rfl, by simp⟩

/-- C1 amended: rotation does happen between frame writes and the
sequence number increments exactly once, but the frame that triggers
rotation is written to the PRIOR segment's sink as its final write
(never split, never duplicated); only then is the old sink closed, the
count incremented and a new sink opened with the clock reset, so the
NEW sink's first write is the following frame, and the prior sink
receives no further writes over any continuation of the recording. -/
theorem rotation_between_writes :
    ∀ (st : RecorderState) (f : Nat) (t : ℚ),
      st.record_video = true → st.recording_active = true →
      st.video_writer = some st.video_segment_count →
      st.video_segment_duration ≤ t - st.video_start_time →
      (write_video_frame st f t).video_segment_count = st.video_segment_count + 1 ∧
      (write_video_frame st f t).writes = st.writes ++ [(st.video_segment_count, f)] ∧
      (write_video_frame st f t).video_writer = some (st.video_segment_count + 1) ∧
      (write_video_frame st f t).recording_active = true ∧
      (write_video_frame st f t).video_start_time = t ∧
      (∀ (f2 : Nat) (t2 : ℚ), t2 - t < st.video_segment_duration →
        (write_video_frame (write_video_frame st f t) f2 t2).writes =
          st.writes ++ [(st.video_segment_count, f)] ++
            [(st.video_segment_count + 1, f2)]) ∧
      (∀ frames : List (Nat × ℚ), ∃ tail,
        (recordTrace (write_video_frame st f t) frames).writes =
          st.writes ++ [(st.video_segment_count, f)] ++ tail ∧
        ∀ p ∈ tail, st.video_segment_count < p.1) := by
  intro st f t hrec hact hw hel
  have e := write_video_frame_rotate st f t hrec hact _ hw hel
  refine ⟨by simp [e], by simp [e], by simp [e], by simp [e], by simp [e], ?_, ?_⟩
  · intro f2 t2 h2
    have e2 := write_video_frame_no_rotate (write_video_frame st f t) f2 t2
      (by rw [e]; exact hrec) (by rw [e]) (st.video_segment_count + 1) (by rw [e])
      (by rw [e]; simpa using not_le.mpr h2)
    rw [e2, e]
  · intro frames
    have hwc : writerConsistent (write_video_frame st f t) := by
      intro w' hw'
      rw [e] at hw' ⊢
      simpa using hw'.symm
    obtain ⟨tail, he, hm⟩ := recordTrace_facts frames _ hwc
    refine ⟨tail, ?_, ?_⟩
    · rw [he, e]
    · intro p hp
      have := hm p hp
      rw [e] at this
      simp at this
      omega

/-- Witness for C1 at the concrete rotating state: sink 1 open since
time 0, budget 30, frame 5 arriving at time 31. -/
theorem rotation_between_writes_witness :
    (write_video_frame ⟨true, true, some 1, 0, 30, 1, []⟩ 5 31).video_segment_count = 2 ∧
    (write_video_frame ⟨true, true, some 1, 0, 30, 1, []⟩ 5 31).writes = [(1, 5)] :=
  ⟨(rotation_between_writes ⟨true, true, some 1, 0, 30, 1, []⟩ 5 31 rfl rfl rfl
      (by norm_num)).1,
   (rotation_between_writes ⟨true, true, some 1, 0, 30, 1, []⟩ 5 31 rfl rfl rfl
      (by norm_num)).2.1⟩

/-- C8: every palette published by `fallback_color_extraction` is
sorted in non-increasing order of percentage, and entries with equal
percentages keep the order in which their cluster centers were inserted
(Python's sort is stable and `np.unique` yields ascending labels). -/
theorem palette_sorted_stable :
    ∀ (labels : List Nat) (centers : Nat → Nat × Nat × Nat) (n : Nat),
      (paletteOf labels centers n).Pairwise (fun a b =>
        b.percentage ≤ a.percentage ∧
        (a.percentage = b.percentage → a.label < b.label)) := by
  intro labels centers n
  have h := pairwise_sortDesc (entries_pairwise_stableTie labels centers)
  exact h.sublist (List.take_sublist n _)

/-- C5: from a non-empty pixel sample, every entry of the published
palette has a percentage in `[0, 100]`, and the percentages sum to at
most 100 (the full partition sums to exactly 100; truncating to
`n_colors` can only lower it). -/
theorem palette_percentages_bounded :
    ∀ (labels : List Nat) (centers : Nat → Nat × Nat × Nat) (n : Nat),
      labels ≠ [] →
      (∀ e ∈ paletteOf labels centers n,
        0 ≤ e.percentage ∧ e.percentage ≤ 100) ∧
      ((paletteOf labels centers n).map (fun e => e.percentage)).sum ≤ 100 := by
  intro labels centers n hne
  have hLpos : 0 < (labels.length : ℚ) := by
    exact_mod_cast List.length_pos.mpr hne
  have hmem : ∀ e ∈ sortDesc ((uniqueLabels labels).map (mkEntry labels centers)),
      0 ≤ e.percentage ∧ e.percentage ≤ 100 := by
    intro e he
    have he' : e ∈ (uniqueLabels labels).map (mkEntry labels centers) :=
      (perm_sortDesc _).subset he
    obtain ⟨lab, _, rfl⟩ := List.mem_map.mp he'
    constructor
    · show (0 : ℚ) ≤ (labels.count lab : ℚ) / (labels.length : ℚ) * 100
      positivity
    · show (labels.count lab : ℚ) / (labels.length : ℚ) * 100 ≤ 100
      have hc : (labels.count lab : ℚ) ≤ (labels.length : ℚ) := by
        exact_mod_cast List.count_le_length lab labels
      have hdiv : (labels.count lab : ℚ) / (labels.length : ℚ) ≤ 1 :=
        (div_le_one hLpos).mpr hc
      calc (labels.count lab : ℚ) / (labels.length : ℚ) * 100
          ≤ 1 * 100 := mul_le_mul_of_nonneg_right hdiv (by norm_num)
        _ = 100 := by norm_num
  refine ⟨fun e he => hmem e (List.take_subset n _ he), ?_⟩
  have hsplit : ((sortDesc ((uniqueLabels labels).map (mkEntry labels centers))).map
      (fun e => e.percentage)).sum = 100 := by
    rw [((perm_sortDesc _).map _).sum_eq, List.map_map]
    have hfun : ((fun e : PaletteEntry => e.percentage) ∘ mkEntry labels centers)
        = fun lab => (labels.count lab : ℚ) / (labels.length : ℚ) * 100 := by
      funext lab
      rfl
    rw [hfun]
    exact sum_percentages_eq labels hne
  have hle : (((sortDesc ((uniqueLabels labels).map (mkEntry labels centers))).take n).map
      (fun e => e.percentage)).sum ≤
      ((sortDesc ((uniqueLabels labels).map (mkEntry labels centers))).map
      (fun e => e.percentage)).sum := by
    conv_rhs =>
      rw [← List.take_append_drop n
        (sortDesc ((uniqueLabels labels).map (mkEntry labels centers)))]
    rw [List.map_append, List.sum_append]
    have h0 : 0 ≤ (((sortDesc ((uniqueLabels labels).map (mkEntry labels centers))).drop n).map
        (fun e => e.percentage)).sum := by
      apply List.sum_nonneg
      intro q hq
      obtain ⟨e, he, rfl⟩ := List.mem_map.mp hq
      exact (hmem e (List.drop_subset n _ he)).1
    linarith
  exact le_trans hle (le_of_eq hsplit)

/-- Witness for C5 on the concrete sample with labels `[0, 0, 1]`
(two clusters, one gray center): the published percentages sum to at
most 100. -/
theorem palette_percentages_bounded_witness :
    ([0, 0, 1] : List Nat) ≠ [] ∧
    ((paletteOf [0, 0, 1] (fun _ => (0, 0, 0)) 2).map
      (fun e => e.percentage)).sum ≤ 100 :=
  ⟨by decide,
   (palette_percentages_bounded [0, 0, 1] (fun _ => (0, 0, 0)) 2 (by decide)).2⟩

end WebcamDemo
